import Mathlib

/-!
Verification of the ziplinee-ci-builder repository against its
natural-language specification.

The Go sources are shallowly embedded: pure helpers become Lean functions,
the process environment becomes an explicit map, Go pointers into the build
log become indices into an explicit heap, wall-clock times become integers
(seconds), and calls to external collaborators (the control plane, the
govaluate expression library, the foundation string helpers) become
parameters or recorded events.  Strings that the code inspects character by
character are modelled as `List Char` (the inputs of interest are ASCII, so
the byte-level Go code and the character-level model agree).
-/

/-! ## Build log data model (from ziplinee-ci-contracts, as used by the repo)

Only the fields the verified code touches are modelled: `SendBuildJobLogEvent`
and `HandleFatal` read and write a step's name, log lines, exit code and
status.  The timestamp of a log line is modelled as a natural number. -/

/-- Log status of a build step (contracts.LogStatus). -/
inductive LogStatus where
  | pending
  | running
  | succeeded
  | failed
  | skipped
  | canceled
  | unknown
deriving DecidableEq, Repr

/-- One log line of a build step (contracts.BuildLogLine). -/
structure BuildLogLine where
  lineNumber : Nat
  timestamp : Nat
  streamType : String
  text : String
deriving DecidableEq, Repr

/-- One step of the build log (contracts.BuildLogStep); fields not touched by
the verified code (image metadata, nested steps, services) are omitted. -/
structure BuildLogStep where
  step : String
  logLines : List BuildLogLine
  exitCode : Int
  status : LogStatus
deriving DecidableEq, Repr

/-! ## End-of-life reporter calls (end_of_life_helper.go)

The control-plane calls made by `HandleFatal` are recorded as events; the
build log payload of `SendBuildJobLogEvent` is recorded by value. -/

/-- A control-plane call issued by the end-of-life helper. -/
inductive EolCall where
  | buildFinished (status : LogStatus)
  | buildJobLog (steps : List BuildLogStep)
  | buildClean (status : LogStatus)
deriving DecidableEq, Repr

/-- How the process terminates after `HandleFatal`. -/
inductive ExitAction where
  | exitZero
  | fatalExit
deriving DecidableEq, Repr

/-- Embedding of `endOfLifeHelper.HandleFatal` (end_of_life_helper.go).
The two `time.Now().UTC()` reads are modelled by the single parameter `now`;
the build log is its list of steps (the repo identity fields play no role).
Returns the sequence of control-plane calls and the exit action. -/
def handleFatal (buildLogSteps : List BuildLogStep) (err : Option String)
    (message : String) (now : Nat) (runAsJob : Bool) :
    List EolCall × ExitAction :=
  let fatalStep0 : BuildLogStep :=
    { step := "init", logLines := [], exitCode := -1, status := .failed }
  let lineNumber := 1
  let st1 : BuildLogStep × Nat :=
    match err with
    | some e =>
        ({ fatalStep0 with logLines := fatalStep0.logLines ++
            [{ lineNumber := lineNumber, timestamp := now,
               streamType := "stderr", text := e }] }, lineNumber + 1)
    | none => (fatalStep0, lineNumber)
  let fatalStep : BuildLogStep :=
    if message ≠ "" then
      { st1.1 with logLines := st1.1.logLines ++
          [{ lineNumber := st1.2, timestamp := now,
             streamType := "stderr", text := message }] }
    else st1.1
  let newSteps := buildLogSteps ++ [fatalStep]
  ([EolCall.buildFinished .failed,
    EolCall.buildJobLog newSteps,
    EolCall.buildClean .failed],
   if runAsJob then ExitAction.exitZero else ExitAction.fatalExit)

/-! ## JWT-expiry cancellation timer (ci_builder.go, RunZiplineeBuildJob)

Times are modelled as integers in seconds.  Go `time.Time.Add` returns a new
value; the source discards that return value, which is the point of claim C2. -/

/-- Go time.Time.Add: returns the shifted time, leaving the receiver alone. -/
def timeAdd (t d : Int) : Int := t + d

/-- Go time.Time.Sub. -/
def timeSub (t u : Int) : Int := t - u

/-- Embedding of the duration computed for the cancellation timer inside the
goroutine of `RunZiplineeBuildJob` (ci_builder.go).  The source line
`expiryTime.Add(time.Duration(-15) * time.Minute)` produces a value that is
bound to nothing, exactly as the `let _discarded` here. -/
def cancelTimerDuration (jwtExpiry now : Int) : Int :=
  let expiryTime := jwtExpiry
  let _discarded := timeAdd expiryTime (-15 * 60)
  timeSub expiryTime now

/-- Modelled from the spec: the timer is meant to fire 15 minutes before the
JWT expires, so the intended duration is (JWTExpiry - 15 minutes) - now. -/
def cancelTimerDurationIntended (jwtExpiry now : Int) : Int :=
  timeSub (timeAdd jwtExpiry (-15 * 60)) now

/-! ## Docker-client creation guard (ci_builder.go, RunZiplineeBuildJob)

The manifest type comes from the external ziplinee-ci-manifest library; only
the builder type field is relevant.  A Go nil-pointer dereference is modelled
by `Option`: `none` as the result of the guard means the evaluation panics. -/

/-- Builder type of the manifest (manifest.BuilderType). -/
inductive BuilderType where
  | kubernetes
  | docker
deriving DecidableEq, Repr

/-- The part of the manifest the guard reads. -/
structure ManifestBuilder where
  builderType : BuilderType
deriving DecidableEq, Repr

/-- Embedding of the guard
`builderConfig.Manifest != nil || builderConfig.Manifest.Builder.BuilderType != manifest.BuilderTypeKubernetes`
(ci_builder.go).  Go `||` short-circuits, so a non-nil manifest makes the
guard true without looking at the builder type; a nil manifest falls through
to the second disjunct, which dereferences the nil pointer (`none`). -/
def createDockerClientGuard (m : Option ManifestBuilder) : Option Bool :=
  if m.isSome then some true
  else
    match m with
    | some mb => some (decide (mb.builderType ≠ BuilderType.kubernetes))
    | none => none

/-- Modelled from the spec: create a container-daemon client unless the
builder type is Kubernetes, and short-circuit on a nil manifest. -/
def createDockerClientGuardIntended (m : Option ManifestBuilder) : Option Bool :=
  match m with
  | none => some false
  | some mb => some (decide (mb.builderType ≠ BuilderType.kubernetes))

/-! ## Environment-variable override (envvar helper, OverrideEnvvars)

A Go `map[string]string` is modelled by its lookup function.  The source
builds a fresh map and copies every input map into it in argument order, so
the last map containing a key wins; the inputs are only read. -/

/-- Lookup function of a Go `map[string]string`; `none` means the key is
absent. -/
def GoEnvMap : Type := String → Option String

/-- Embedding of `envvarHelper.OverrideEnvvars` (envvar helper): fold the
argument maps left to right into a fresh map, later writes overwriting
earlier ones. -/
def OverrideEnvvars (envvarMaps : List GoEnvMap) : GoEnvMap :=
  fun k =>
    envvarMaps.foldl
      (fun envvars m =>
        match m k with
        | some v => some v
        | none => envvars)
      none

/-- CLAIM C2: the background cancellation timer of RunZiplineeBuildJob is
claimed to be armed with (JWTExpiry - 15 minutes) - now.  The code discards
the result of `expiryTime.Add(-15m)` and arms the timer with JWTExpiry - now
instead: with expiry 3600s and now 0s the code waits 3600s while the
intended duration is 2700s, so CancelJob fires at expiry, not 15 minutes
before it. -/
theorem cancelTimer_fires_at_expiry_not_before :
    cancelTimerDuration 3600 0 = 3600 ∧
    cancelTimerDurationIntended 3600 0 = 2700 ∧
    cancelTimerDuration 3600 0 ≠ cancelTimerDurationIntended 3600 0 := by
  refine ⟨rfl, rfl, ?_⟩
  decide

/-- CLAIM C4: the guard deciding whether to create a docker client is claimed
to short-circuit safely on a nil manifest and to create the client exactly
when the builder type is not Kubernetes.  The code has `||` where the intent
is `&&`: a nil manifest reaches the second disjunct and dereferences the nil
pointer (modelled as `none`), and a Kubernetes manifest still yields `true`,
while the intended guard yields `false` in both cases. -/
theorem createDockerClientGuard_wrong_disjunction :
    createDockerClientGuard none = none ∧
    createDockerClientGuard (some ⟨BuilderType.kubernetes⟩) = some true ∧
    createDockerClientGuardIntended none = some false ∧
    createDockerClientGuardIntended (some ⟨BuilderType.kubernetes⟩) = some false := by
  refine ⟨rfl, rfl, rfl, rfl⟩

/-- CLAIM C5: for every build log, error and message, HandleFatal appends
exactly one synthetic step named "init" with status Failed and exit code -1,
whose stderr lines (numbered from 1) are the error text when the error is
non-nil followed by the message when non-empty, and then issues
Finished(Failed), the log payload with the augmented steps, and
Cleaned(Failed), in this order, before exiting 0 when run-as-job and fatally
otherwise. -/
theorem handleFatal_injects_init_step_and_sequences_events
    (buildLogSteps : List BuildLogStep) (err : Option String)
    (message : String) (now : Nat) (runAsJob : Bool) :
    handleFatal buildLogSteps err message now runAsJob =
      ([EolCall.buildFinished .failed,
        EolCall.buildJobLog (buildLogSteps ++
          [{ step := "init",
             logLines :=
               (match err with
                | some e =>
                    if message = "" then
                      [{ lineNumber := 1, timestamp := now,
                         streamType := "stderr", text := e }]
                    else
                      [{ lineNumber := 1, timestamp := now,
                         streamType := "stderr", text := e },
                       { lineNumber := 2, timestamp := now,
                         streamType := "stderr", text := message }]
                | none =>
                    if message = "" then []
                    else
                      [{ lineNumber := 1, timestamp := now,
                         streamType := "stderr", text := message }]),
             exitCode := -1,
             status := .failed }]),
        EolCall.buildClean .failed],
       if runAsJob then ExitAction.exitZero else ExitAction.fatalExit) := by
  cases err with
  | none =>
      by_cases hm : message = "" <;>
        simp [handleFatal, hm]
  | some e =>
      by_cases hm : message = "" <;>
        simp [handleFatal, hm]

/-- CLAIM C8: OverrideEnvvars is a rightmost-wins merge: a key present in the
right map takes the right map value, and a key absent from the right map
keeps the left map value.  (The embedding is a pure function over lookup
maps, so non-modification of the inputs is inherent in the model; the source
only reads the argument maps and writes into a freshly allocated map.) -/
theorem overrideEnvvars_right_wins (a b : GoEnvMap) (k : String) :
    (∀ v, b k = some v → OverrideEnvvars [a, b] k = some v) ∧
    (b k = none → OverrideEnvvars [a, b] k = a k) := by
  constructor
  · intro v hv
    simp [OverrideEnvvars, hv]
  · intro hb
    simp only [OverrideEnvvars, List.foldl_cons, List.foldl_nil, hb]
    cases a k <;> rfl

/-- Concrete left and right maps for the override witness. -/
def envMapLeft : GoEnvMap :=
  fun k => if k = "x" then some "fromLeftX" else if k = "y" then some "fromLeftY" else none

/-- Concrete right map for the override witness. -/
def envMapRight : GoEnvMap :=
  fun k => if k = "x" then some "fromRightX" else none

/-- Witness for C8 at concrete maps: the shared key takes the right value,
the left-only key keeps the left value. -/
theorem overrideEnvvars_right_wins_witness :
    OverrideEnvvars [envMapLeft, envMapRight] "x" = some "fromRightX" ∧
    OverrideEnvvars [envMapLeft, envMapRight] "y" = some "fromLeftY" :=
  ⟨(overrideEnvvars_right_wins envMapLeft envMapRight "x").1 "fromRightX" (by rfl),
   (overrideEnvvars_right_wins envMapLeft envMapRight "y").2 (by rfl) ▸ (by rfl)⟩

/-! ## Slim-log fallback of SendBuildJobLogEvent (end_of_life_helper.go)

`buildLog.Steps` is a slice of pointers (`[]*contracts.BuildLogStep`).  The
fallback loop copies the *pointer* (`slimBuildLogStep := s`) and assigns a
fresh LogLines slice through it, mutating the step the caller also sees.
Pointers are modelled as indices into an explicit heap; the payload sent on
each attempt is the dereferenced step list at send time. -/

/-- Heap of build log steps; Go pointers are indices. -/
def StepHeap : Type := Nat → BuildLogStep

/-- Text of the truncation marker line (end_of_life_helper.go). -/
def truncatedText : String :=
  "Truncated logs for reducing total log size; to prevent this use less verbose logging"

/-- The single replacement log line: line number and timestamp of the
original first line of the step, stream stdout, marker text. -/
def truncatedLogLine (first : BuildLogLine) : BuildLogLine :=
  { lineNumber := first.lineNumber, timestamp := first.timestamp,
    streamType := "stdout", text := truncatedText }

/-- One iteration of the fallback loop on the step a pointer refers to:
if the step status is Succeeded and it has at least one log line, its
LogLines are replaced by the single truncation marker built from its first
line; otherwise the step is left alone. -/
def slimStepUpdate (s : BuildLogStep) : BuildLogStep :=
  if s.status = LogStatus.succeeded then
    match s.logLines with
    | [] => s
    | first :: _ => { s with logLines := [truncatedLogLine first] }
  else s

/-- Heap update at a pointer. -/
def heapUpdate (h : StepHeap) (p : Nat) (s : BuildLogStep) : StepHeap :=
  fun q => if q = p then s else h q

/-- The loop body's effect on the heap: the assignment
`slimBuildLogStep.LogLines = ...` writes through the shared pointer. -/
def slimHeapStep (h : StepHeap) (p : Nat) : StepHeap :=
  heapUpdate h p (slimStepUpdate (h p))

/-- Embedding of the fallback loop of `SendBuildJobLogEvent`: walks the
caller's pointer list, truncating succeeded steps in the heap, and collects
the very same pointers into `slimBuildLog.Steps`. -/
def slimBuildLogSteps (h : StepHeap) (steps : List Nat) : StepHeap × List Nat :=
  (steps.foldl slimHeapStep h, steps)

/-- Dereference a pointer list into the payload actually marshalled. -/
def renderSteps (h : StepHeap) (steps : List Nat) : List BuildLogStep :=
  steps.map h

/-- Embedding of `endOfLifeHelper.SendBuildJobLogEvent`: the first attempt
marshals the current heap contents; when it fails (`firstAttemptFails`), the
slim loop runs and the second attempt marshals the mutated heap through the
same pointer list.  Returns the attempted payloads in order and the final
heap visible to the caller. -/
def sendBuildJobLogEvent (firstAttemptFails : Bool) (h : StepHeap)
    (steps : List Nat) : List (List BuildLogStep) × StepHeap :=
  if firstAttemptFails then
    let slim := slimBuildLogSteps h steps
    ([renderSteps h steps, renderSteps slim.1 slim.2], slim.1)
  else
    ([renderSteps h steps], h)

/-- Truncating an already truncated step changes nothing: the marker line
keeps the first line's number and timestamp, so rebuilding it from itself is
the identity. -/
theorem slimStepUpdate_idem (s : BuildLogStep) :
    slimStepUpdate (slimStepUpdate s) = slimStepUpdate s := by
  unfold slimStepUpdate
  by_cases hs : s.status = LogStatus.succeeded
  · cases hl : s.logLines with
    | nil => simp [hs, hl]
    | cons first rest => simp [hs, hl, truncatedLogLine]
  · simp [hs]

/-- The loop body only changes the pointed-to step. -/
theorem slimHeapStep_apply (h : StepHeap) (p q : Nat) :
    slimHeapStep h p q = if q = p then slimStepUpdate (h p) else h q := by
  unfold slimHeapStep heapUpdate
  by_cases hqp : q = p <;> simp [hqp]

/-- Pointwise description of the whole fallback loop: a pointer occurring in
the list ends up truncated (idempotently, so duplicate pointers are
harmless), any other pointer is untouched. -/
theorem foldl_slimHeapStep_apply (steps : List Nat) (h : StepHeap) (p : Nat) :
    (steps.foldl slimHeapStep h) p =
      if p ∈ steps then slimStepUpdate (h p) else h p := by
  induction steps generalizing h with
  | nil => simp
  | cons q rest ih =>
      simp only [List.foldl_cons, ih, slimHeapStep_apply]
      by_cases hpq : p = q
      · subst hpq
        by_cases hmem : p ∈ rest <;>
          simp [hmem, slimStepUpdate_idem]
      · by_cases hmem : p ∈ rest <;>
          simp [hmem, hpq, List.mem_cons]

/-- The payload marshalled on the second (retry) attempt. -/
def secondAttemptPayload (h : StepHeap) (steps : List Nat) : List BuildLogStep :=
  ((sendBuildJobLogEvent true h steps).1)[1]?.getD []

/-- CLAIM C1: when the first transmission fails, a second attempt is made and
its payload has, positionwise, for every step with status Succeeded and at
least one log line, exactly one log line carrying the truncation marker text
with the line number and timestamp of the step's original first line, while
every step with a non-Succeeded status keeps its log lines unchanged. -/
theorem sendBuildJobLogEvent_slim_second_payload
    (h : StepHeap) (steps : List Nat) (i p : Nat) (hip : steps[i]? = some p) :
    (sendBuildJobLogEvent true h steps).1.length = 2 ∧
    (∀ first rest,
        (h p).status = LogStatus.succeeded → (h p).logLines = first :: rest →
        (secondAttemptPayload h steps)[i]? =
          some { h p with logLines :=
            [{ lineNumber := first.lineNumber, timestamp := first.timestamp,
               streamType := "stdout", text := truncatedText }] }) ∧
    ((h p).status ≠ LogStatus.succeeded →
        (secondAttemptPayload h steps)[i]? = some (h p)) := by
  have hp : p ∈ steps := by
    have := List.getElem?_eq_some_iff.mp hip
    obtain ⟨hlt, hget⟩ := this
    exact hget ▸ List.getElem_mem hlt
  refine ⟨by simp [sendBuildJobLogEvent, renderSteps, slimBuildLogSteps], ?_, ?_⟩
  · intro first rest hst hl
    simp only [secondAttemptPayload, sendBuildJobLogEvent, slimBuildLogSteps,
      renderSteps, if_true]
    simp only [List.getElem?_cons_succ, List.getElem?_cons_zero, Option.getD_some,
      List.getElem?_map, hip, Option.map_some']
    simp [foldl_slimHeapStep_apply, hp, slimStepUpdate, hst, hl, truncatedLogLine]
  · intro hst
    simp only [secondAttemptPayload, sendBuildJobLogEvent, slimBuildLogSteps,
      renderSteps, if_true]
    simp only [List.getElem?_cons_succ, List.getElem?_cons_zero, Option.getD_some,
      List.getElem?_map, hip, Option.map_some']
    simp [foldl_slimHeapStep_apply, hp, slimStepUpdate, hst]

/-- Concrete heap for the slim-log witnesses: pointer 0 is a succeeded step
with two log lines, pointer 1 a failed step with one line. -/
def witnessHeap : StepHeap := fun p =>
  if p = 0 then
    { step := "build",
      logLines := [{ lineNumber := 1, timestamp := 10, streamType := "stdout", text := "line one" },
                   { lineNumber := 2, timestamp := 11, streamType := "stdout", text := "line two" }],
      exitCode := 0, status := .succeeded }
  else
    { step := "test",
      logLines := [{ lineNumber := 1, timestamp := 12, streamType := "stdout", text := "boom" }],
      exitCode := 1, status := .failed }

/-- Witness for C1: at the concrete heap, position 0 of the second payload is
the succeeded step collapsed to the marker line with line number 1 and
timestamp 10 of its original first line. -/
theorem sendBuildJobLogEvent_slim_second_payload_witness :
    (secondAttemptPayload witnessHeap [0, 1])[0]? =
      some { witnessHeap 0 with logLines :=
        [{ lineNumber := 1, timestamp := 10, streamType := "stdout",
           text := truncatedText }] } :=
  (sendBuildJobLogEvent_slim_second_payload witnessHeap [0, 1] 0 0 rfl).2.1
    { lineNumber := 1, timestamp := 10, streamType := "stdout", text := "line one" }
    [{ lineNumber := 2, timestamp := 11, streamType := "stdout", text := "line two" }]
    rfl rfl

/-- CLAIM C10: the slim payload is assembled from the caller's own step
pointers, so after a failed first attempt the caller-visible build log
dereferences to exactly the slim payload, and every succeeded step with at
least one log line has had its log lines overwritten by the single marker
line; the original lines survive nowhere in the final state. -/
theorem sendBuildJobLogEvent_slim_mutates_caller (h : StepHeap) (steps : List Nat) :
    (slimBuildLogSteps h steps).2 = steps ∧
    renderSteps (sendBuildJobLogEvent true h steps).2 steps =
      secondAttemptPayload h steps ∧
    (∀ p ∈ steps, ∀ first rest,
        (h p).status = LogStatus.succeeded → (h p).logLines = first :: rest →
        ((sendBuildJobLogEvent true h steps).2 p).logLines =
          [truncatedLogLine first]) := by
  refine ⟨rfl, ?_, ?_⟩
  · simp [sendBuildJobLogEvent, secondAttemptPayload, slimBuildLogSteps, renderSteps]
  · intro p hp first rest hst hl
    simp [sendBuildJobLogEvent, slimBuildLogSteps, foldl_slimHeapStep_apply,
      hp, slimStepUpdate, hst, hl]

/-- Witness for C10: at the concrete heap, after the failed first attempt the
caller sees the succeeded step's lines replaced by the marker line. -/
theorem sendBuildJobLogEvent_slim_mutates_caller_witness :
    ((sendBuildJobLogEvent true witnessHeap [0, 1]).2 0).logLines =
      [truncatedLogLine { lineNumber := 1, timestamp := 10,
                          streamType := "stdout", text := "line one" }] :=
  (sendBuildJobLogEvent_slim_mutates_caller witnessHeap [0, 1]).2.2 0 (by simp)
    { lineNumber := 1, timestamp := 10, streamType := "stdout", text := "line one" }
    [{ lineNumber := 2, timestamp := 11, streamType := "stdout", text := "line two" }]
    rfl rfl

/-! ## DNS-label sanitation (envvar helper, makeDNSLabelSafe)

Strings are modelled as `List Char`.  Go `strings.ToLower` is modelled on
ASCII by `Char.toLower` (any character the two disagree on is outside
[a-z0-9-] and is replaced by a hyphen anyway).  The regex replacement
`[^a-z0-9-]+` -> "-" collapses each maximal run of invalid characters into
one hyphen; `strings.Replace(v, "--", "-", -1)` is a single non-overlapping
left-to-right pass; `strings.Trim(v, "-")` drops hyphens from both ends;
`^[0-9-]+` -> "" drops the leading run of digits and hyphens; `value[:63]`
truncates (all characters are ASCII at that point, so bytes = characters). -/

/-- Lowercase ASCII letter. -/
def isLowerAlpha (c : Char) : Bool := 'a' ≤ c && c ≤ 'z'

/-- ASCII digit. -/
def isDigitChar (c : Char) : Bool := '0' ≤ c && c ≤ '9'

/-- Character class [a-z0-9-] of the sanitizer. -/
def isDNSChar (c : Char) : Bool := isLowerAlpha c || isDigitChar c || c == '-'

/-- Regex replacement of every maximal run of characters outside [a-z0-9-]
by a single hyphen; the flag records whether the previous character was part
of such a run. -/
def collapseInvalidRuns : List Char → Bool → List Char
  | [], _ => []
  | c :: rest, prevInvalid =>
    if isDNSChar c then c :: collapseInvalidRuns rest false
    else if prevInvalid then collapseInvalidRuns rest true
    else '-' :: collapseInvalidRuns rest true

/-- Go `strings.Replace(value, "--", "-", -1)`: one left-to-right pass over
non-overlapping occurrences (it does NOT iterate to a fixed point). -/
def replaceDoubleHyphenPass : List Char → List Char
  | '-' :: '-' :: rest => '-' :: replaceDoubleHyphenPass rest
  | c :: rest => c :: replaceDoubleHyphenPass rest
  | [] => []

/-- Drop hyphens from the front. -/
def trimLeftHyphens (l : List Char) : List Char := l.dropWhile (· == '-')

/-- Drop hyphens from the back. -/
def trimRightHyphens (l : List Char) : List Char :=
  (l.reverse.dropWhile (· == '-')).reverse

/-- Go `strings.Trim(value, "-")`. -/
def trimHyphens (l : List Char) : List Char := trimRightHyphens (trimLeftHyphens l)

/-- Regex replacement `^[0-9-]+` -> "": drop the leading run of digits and
hyphens. -/
def stripLeadingDigitsHyphens (l : List Char) : List Char :=
  l.dropWhile (fun c => isDigitChar c || c == '-')

/-- Embedding of `envvarHelper.makeDNSLabelSafe` (envvar helper): lowercase,
map invalid runs to hyphens, single-pass collapse of double hyphens, trim
hyphens, strip leading digits and hyphens, truncate to 63, trim again. -/
def makeDNSLabelSafe (value : List Char) : List Char :=
  let v1 := value.map Char.toLower
  let v2 := collapseInvalidRuns v1 false
  let v3 := replaceDoubleHyphenPass v2
  let v4 := trimHyphens v3
  let v5 := stripLeadingDigitsHyphens v4
  let v6 := v5.take 63
  trimHyphens v6

/-- Decidable reading of the regex ^[a-z]([a-z0-9-]{0,61}[a-z0-9])?$ on a
character list: nonempty, at most 63 characters, first character a lowercase
letter, every character in [a-z0-9-], last character a lowercase letter or a
digit. -/
def matchesDNSLabelPattern (l : List Char) : Bool :=
  match l with
  | [] => false
  | c :: rest =>
      isLowerAlpha c && decide (rest.length ≤ 62) && rest.all isDNSChar &&
      (let last := (c :: rest).getLastD ' '
       isLowerAlpha last || isDigitChar last)


/-- Every character the run-collapsing substitution emits is in [a-z0-9-]. -/
theorem collapseInvalidRuns_all_valid (l : List Char) (b : Bool) :
    (collapseInvalidRuns l b).all isDNSChar = true := by
  induction l generalizing b with
  | nil => rfl
  | cons c rest ih =>
      by_cases hc : isDNSChar c = true
      · simp [collapseInvalidRuns, hc, ih]
      · cases b with
        | true => simp [collapseInvalidRuns, hc, ih]
        | false =>
            simp only [collapseInvalidRuns, hc, if_false, Bool.false_eq_true,
              List.all_cons, ih, Bool.and_true]
            decide

/-- The single collapse pass only keeps input characters or emits hyphens
that already occurred in the input pair it replaced. -/
theorem replaceDoubleHyphenPass_subset (l : List Char) :
    ∀ c ∈ replaceDoubleHyphenPass l, c ∈ l := by
  induction l using replaceDoubleHyphenPass.induct with
  | case1 rest ih =>
      intro c hc
      rw [replaceDoubleHyphenPass] at hc
      rcases List.mem_cons.mp hc with h | h
      · simp [h]
      · simp [List.mem_cons, ih c h]
  | case2 c' rest hne ih =>
      intro c hc
      rw [replaceDoubleHyphenPass] at hc
      · rcases List.mem_cons.mp hc with h | h
        · simp [h]
        · simp [List.mem_cons, ih c h]
      · exact hne
  | case3 =>
      intro c hc
      simp [replaceDoubleHyphenPass] at hc

/-- The first element surviving a dropWhile fails the predicate. -/
theorem dropWhile_eq_cons_pred_false {α : Type} (p : α → Bool) (l : List α)
    (c : α) (rest : List α) (h : l.dropWhile p = c :: rest) : p c = false := by
  induction l with
  | nil => simp at h
  | cons a t ih =>
      rw [List.dropWhile_cons] at h
      cases hpa : p a with
      | true => rw [hpa] at h; simp only [if_true] at h; exact ih h
      | false =>
          rw [hpa] at h
          simp only [Bool.false_eq_true, if_false, List.cons.injEq] at h
          rw [← h.1]; exact hpa

/-- Right-trimming yields a prefix of the input. -/
theorem trimRightHyphens_prefixOf (l : List Char) : trimRightHyphens l <+: l := by
  have h1 : (trimRightHyphens l).reverse <:+ l.reverse := by
    unfold trimRightHyphens
    rw [List.reverse_reverse]
    exact List.dropWhile_suffix _
  exact List.reverse_suffix.mp h1

/-- A nonempty right-trimmed list ends in a character that is not a hyphen. -/
theorem trimRightHyphens_getLast (l : List Char) (h : trimRightHyphens l ≠ []) :
    ∃ d, (trimRightHyphens l).getLast? = some d ∧ (d == '-') = false ∧
      d ∈ trimRightHyphens l := by
  unfold trimRightHyphens at h ⊢
  set m := l.reverse.dropWhile (· == '-') with hm
  have hmne : m ≠ [] := by
    intro hmnil
    rw [hmnil] at h
    simp at h
  cases hme : m with
  | nil => exact absurd hme hmne
  | cons d rest =>
      refine ⟨d, ?_, ?_, ?_⟩
      · rw [List.getLast?_reverse]; rfl
      · exact dropWhile_eq_cons_pred_false (· == '-') l.reverse d rest (hm ▸ hme)
      · simp

/-- Trimming both ends yields a sublist. -/
theorem trimHyphens_sublist (l : List Char) : (trimHyphens l).Sublist l :=
  (trimRightHyphens_prefixOf _).sublist.trans (List.dropWhile_sublist _)

/-- Case split of the [a-z0-9-] class. -/
theorem isDNSChar_cases (c : Char) (h : isDNSChar c = true) :
    isLowerAlpha c = true ∨ isDigitChar c = true ∨ (c == '-') = true := by
  simp only [isDNSChar, Bool.or_eq_true] at h
  tauto

/-- The tail of the sanitizer (trim, strip leading digits and hyphens,
truncate to 63, trim) turns any list over [a-z0-9-] into the empty list or a
match of the DNS-label regex. -/
theorem dnsFinalize (m : List Char) (hm : m.all isDNSChar = true) :
    trimHyphens ((stripLeadingDigitsHyphens (trimHyphens m)).take 63) = [] ∨
      matchesDNSLabelPattern
        (trimHyphens ((stripLeadingDigitsHyphens (trimHyphens m)).take 63)) = true := by
  have hv4 : (trimHyphens m).Sublist m := trimHyphens_sublist m
  have hv4all : (trimHyphens m).all isDNSChar = true := by
    rw [List.all_eq_true] at hm ⊢
    exact fun x hx => hm x (hv4.subset hx)
  set v4 := trimHyphens m with hv4def
  cases hv5e : stripLeadingDigitsHyphens v4 with
  | nil => left; rfl
  | cons c rest =>
      have hcpred : (isDigitChar c || c == '-') = false :=
        dropWhile_eq_cons_pred_false _ v4 c rest hv5e
      have hcmem : c ∈ v4 := by
        have h1 : c ∈ stripLeadingDigitsHyphens v4 := by rw [hv5e]; simp
        exact (List.dropWhile_sublist _).subset h1
      have hcvalid : isDNSChar c = true := (List.all_eq_true.mp hv4all) c hcmem
      have hchyp : (c == '-') = false := by
        cases hcb : (c == '-') with
        | false => rfl
        | true => rw [hcb] at hcpred; simp at hcpred
      have hclower : isLowerAlpha c = true := by
        rcases isDNSChar_cases c hcvalid with h | h | h
        · exact h
        · rw [h] at hcpred; simp at hcpred
        · rw [h] at hchyp; simp at hchyp
      have htake : List.take 63 (c :: rest) = c :: rest.take 62 := rfl
      have htl : trimLeftHyphens (c :: rest.take 62) = c :: rest.take 62 := by
        unfold trimLeftHyphens
        rw [List.dropWhile_cons, hchyp]
        simp
      rw [htake]
      unfold trimHyphens
      rw [htl]
      cases hfe : trimRightHyphens (c :: rest.take 62) with
      | nil => left; rfl
      | cons d frest =>
          right
          have hpre : trimRightHyphens (c :: rest.take 62) <+: c :: rest.take 62 :=
            trimRightHyphens_prefixOf _
          have hdc : d = c := by
            obtain ⟨t, ht⟩ := hpre
            rw [hfe] at ht
            injection ht with h1 h2
          obtain ⟨lastc, hlast, hlasthyp, hlastmem⟩ :=
            trimRightHyphens_getLast (c :: rest.take 62) (by rw [hfe]; simp)
          have hconsall : (c :: rest.take 62).all isDNSChar = true := by
            rw [List.all_eq_true]
            intro x hx
            rcases List.mem_cons.mp hx with h | h
            · rw [h]; exact hcvalid
            · have h1 : x ∈ rest := (List.take_sublist _ _).subset h
              have h2 : x ∈ stripLeadingDigitsHyphens v4 := by rw [hv5e]; simp [h1]
              exact List.all_eq_true.mp hv4all x ((List.dropWhile_sublist _).subset h2)
          have hfinall : frest.all isDNSChar = true := by
            rw [List.all_eq_true]
            intro x hx
            have h1 : x ∈ c :: rest.take 62 :=
              hpre.sublist.subset (hfe ▸ List.mem_cons_of_mem d hx)
            exact List.all_eq_true.mp hconsall x h1
          have hlastvalid : isDNSChar lastc = true := by
            have h1 : lastc ∈ c :: rest.take 62 := hpre.sublist.subset (hfe ▸ hlastmem)
            exact List.all_eq_true.mp hconsall lastc h1
          have hlastok : (isLowerAlpha lastc || isDigitChar lastc) = true := by
            rcases isDNSChar_cases lastc hlastvalid with h | h | h
            · simp [h]
            · simp [h]
            · rw [h] at hlasthyp; simp at hlasthyp
          have hlen : frest.length ≤ 62 := by
            have h1 : (d :: frest).length ≤ (c :: rest.take 62).length := by
              rw [← hfe]; exact hpre.sublist.length_le
            have h2 : (rest.take 62).length ≤ 62 := by
              rw [List.length_take]; omega
            simp only [List.length_cons] at h1
            omega
          have hgld : (d :: frest).getLastD ' ' = lastc := by
            rw [hfe] at hlast
            rw [List.getLastD_eq_getLast?, hlast]
            rfl
          simp only [matchesDNSLabelPattern, hgld]
          rw [hdc]
          simp [hclower, hlen, hfinall, hlastok]

/-- CLAIM C3 (amended): the output of makeDNSLabelSafe always matches
^[a-z]([a-z0-9-]{0,61}[a-z0-9])?$ or is empty.  The idempotence half of the
claim is false, see the counterexample below. -/
theorem makeDNSLabelSafe_output_shape (value : List Char) :
    makeDNSLabelSafe value = [] ∨
      matchesDNSLabelPattern (makeDNSLabelSafe value) = true := by
  have h2 := collapseInvalidRuns_all_valid (value.map Char.toLower) false
  have h3 : (replaceDoubleHyphenPass
      (collapseInvalidRuns (value.map Char.toLower) false)).all isDNSChar = true := by
    rw [List.all_eq_true] at h2 ⊢
    exact fun x hx => h2 x (replaceDoubleHyphenPass_subset _ x hx)
  exact dnsFinalize _ h3

/-- CLAIM C3 (counterexample): makeDNSLabelSafe is not idempotent.  The Go
`strings.Replace(value, "--", "-", -1)` collapses double hyphens in a single
non-overlapping pass, so "a---b" sanitizes to "a--b", which sanitizes again
to "a-b". -/
theorem makeDNSLabelSafe_not_idempotent :
    makeDNSLabelSafe (makeDNSLabelSafe ('a' :: '-' :: '-' :: '-' :: 'b' :: [])) ≠
      makeDNSLabelSafe ('a' :: '-' :: '-' :: '-' :: 'b' :: []) := by
  decide

/-! ## os.Expand and the prefix-scoped environment lookup

`WhenEvaluator.Evaluate` expands `${VAR}` references through Go `os.Expand`
with `envvarHelper.getZiplineeEnv` as the mapping.  `os.Expand` and its
helpers `getShellName`, `isShellSpecialVar` and `isAlphaNum` are embedded
below on character lists; the recursion of `os.Expand` advances by a
variable width, so it is driven by a fuel argument that starts at the input
length (each step consumes at least one character, so the fuel never runs
out). -/

/-- Go os/env.go isShellSpecialVar. -/
def isShellSpecialVar (c : Char) : Bool :=
  c == '*' || c == '#' || c == '$' || c == '@' || c == '!' || c == '?' || c == '-' ||
  ('0' ≤ c && c ≤ '9')

/-- Go os/env.go isAlphaNum. -/
def isShellAlphaNum (c : Char) : Bool :=
  c == '_' || ('0' ≤ c && c ≤ '9') || ('a' ≤ c && c ≤ 'z') || ('A' ≤ c && c ≤ 'Z')

/-- The brace-scanning arm of Go getShellName, applied to the characters
after the opening brace: find the closing brace; index 0 is the bad-syntax
case eating two characters; no closing brace eats just the brace. -/
def scanBraceName (rest : List Char) : List Char × Nat :=
  match rest.findIdx? (· == '}') with
  | some 0 => ([], 2)
  | some k => (rest.take k, k + 2)
  | none => ([], 1)

/-- Go os/env.go getShellName: returns the referenced name and the number of
characters consumed after the dollar sign. -/
def getShellName : List Char → List Char × Nat
  | [] => ([], 0)
  | '{' :: rest =>
      match rest with
      | c1 :: c2 :: _ =>
          if isShellSpecialVar c1 && c2 == '}' then ([c1], 3)
          else scanBraceName rest
      | _ => scanBraceName rest
  | c :: rest =>
      if isShellSpecialVar c then ([c], 1)
      else ((c :: rest).takeWhile isShellAlphaNum,
            ((c :: rest).takeWhile isShellAlphaNum).length)

/-- Fueled body of Go os.Expand: a dollar sign followed by at least one
character is resolved through getShellName; invalid syntax is eaten, a bare
dollar is kept, and a name is replaced by the mapping. -/
def osExpandFuel (mapping : List Char → List Char) : Nat → List Char → List Char
  | 0, l => l
  | _ + 1, [] => []
  | fuel + 1, c :: rest =>
      if c = '$' ∧ rest ≠ [] then
        let nw := getShellName rest
        if nw.1 = [] ∧ nw.2 > 0 then osExpandFuel mapping fuel (rest.drop nw.2)
        else if nw.1 = [] then c :: osExpandFuel mapping fuel rest
        else mapping nw.1 ++ osExpandFuel mapping fuel (rest.drop nw.2)
      else c :: osExpandFuel mapping fuel rest

/-- Go os.Expand. -/
def osExpand (mapping : List Char → List Char) (s : List Char) : List Char :=
  osExpandFuel mapping s.length s

/-- Go `strings.Replace(key, "ZIPLINEE_", repl, -1)` as used by
`getZiplineeEnvvarName`: replace every non-overlapping occurrence of the
nine-character pattern, scanning left to right. -/
def replaceAllZiplinee (repl : List Char) : List Char → List Char
  | 'Z' :: 'I' :: 'P' :: 'L' :: 'I' :: 'N' :: 'E' :: 'E' :: '_' :: rest =>
      repl ++ replaceAllZiplinee repl rest
  | c :: rest => c :: replaceAllZiplinee repl rest
  | [] => []

/-- The canonical ZIPLINEE_ pattern; it is also the prefix the production
binary configures (main.go wires NewEnvvarHelper with this exact prefix). -/
def ziplineePat : List Char := "ZIPLINEE_".toList

/-- Embedding of `envvarHelper.getZiplineeEnvvarName`. -/
def getZiplineeEnvvarName (pfx key : List Char) : List Char :=
  replaceAllZiplinee pfx key

/-- Embedding of `envvarHelper.getZiplineeEnv`: map the key onto the
configured prefix; a key carrying the prefix is read from the environment
(`env` is total like os.Getenv, returning "" for unset variables); any other
key is answered with the literal placeholder text. -/
def getZiplineeEnv (pfx : List Char) (env : List Char → List Char)
    (key : List Char) : List Char :=
  let key2 := getZiplineeEnvvarName pfx key
  if pfx.isPrefixOf key2 then env key2
  else '$' :: '{' :: (key2 ++ ['}'])

/-- Replacing the ZIPLINEE_ pattern by itself changes nothing, so with the
production prefix the key mapping is the identity. -/
theorem replaceAllZiplinee_self (l : List Char) :
    replaceAllZiplinee ziplineePat l = l := by
  induction l using replaceAllZiplinee.induct ziplineePat with
  | case1 rest ih =>
      rw [replaceAllZiplinee, ih]
      rfl
  | case2 c rest hne ih =>
      rw [replaceAllZiplinee]
      · rw [ih]
      · exact fun r h1 h2 => hne r h1 h2
  | case3 => rfl

/-- The closing brace of a reference whose name avoids it sits right after
the name. -/
theorem findIdx_brace (name : List Char) (hnb : '}' ∉ name) :
    (name ++ ['}']).findIdx? (· == '}') = some name.length := by
  induction name with
  | nil => simp [List.findIdx?_cons]
  | cons a t ih =>
      have ha : a ≠ '}' := fun h => hnb (h ▸ List.mem_cons_self a t)
      have ht : '}' ∉ t := fun h => hnb (List.mem_cons_of_mem a h)
      simp only [List.cons_append, List.findIdx?_cons, beq_iff_eq]
      rw [if_neg ha, List.findIdx?_succ, ih ht]
      rfl

/-- getShellName on a well-formed braced reference returns the name and
consumes the braces plus the name. -/
theorem getShellName_braced (name : List Char) (hne : name ≠ []) (hnb : '}' ∉ name) :
    getShellName ('{' :: (name ++ ['}'])) = (name, name.length + 2) := by
  cases name with
  | nil => exact absurd rfl hne
  | cons n1 ntail =>
      have hn1 : n1 ≠ '}' := fun h => hnb (h ▸ List.mem_cons_self n1 ntail)
      cases ntail with
      | nil =>
          by_cases hsp : isShellSpecialVar n1 = true
          · simp [getShellName, hsp]
          · have hsp2 : isShellSpecialVar n1 = false := by
              cases h : isShellSpecialVar n1
              · rfl
              · exact absurd h hsp
            simp only [List.cons_append, List.nil_append, getShellName, hsp2,
              Bool.false_and, Bool.false_eq_true, if_false, scanBraceName]
            rw [List.findIdx?_cons]
            rw [if_neg (by simp [hn1])]
            rw [List.findIdx?_succ, List.findIdx?_cons]
            simp [scanBraceName]
      | cons n2 nt2 =>
          have hn2 : n2 ≠ '}' := fun h =>
            hnb (h ▸ List.mem_cons_of_mem n1 (List.mem_cons_self n2 nt2))
          have hn2b : (n2 == '}') = false := by simp [hn2]
          have hfind : ((n1 :: n2 :: nt2) ++ ['}']).findIdx? (· == '}') =
              some (n1 :: n2 :: nt2).length := findIdx_brace _ hnb
          simp only [List.cons_append, getShellName, beq_iff_eq, hn2,
            Bool.and_false, Bool.false_eq_true, if_false, scanBraceName]
          rw [show (n1 :: (n2 :: (nt2 ++ ['}']))) = ((n1 :: n2 :: nt2) ++ ['}']) from rfl,
            hfind]
          simp only [List.length_cons]
          rw [List.take_left']
          · simp [hn2b]
          · simp

/-- os.Expand resolves a single well-formed braced reference through the
mapping (and does not rescan the replacement). -/
theorem osExpand_braced (mapping : List Char → List Char) (name : List Char)
    (hne : name ≠ []) (hnb : '}' ∉ name) :
    osExpand mapping ('$' :: '{' :: (name ++ ['}'])) = mapping name := by
  have hlen : ('$' :: '{' :: (name ++ ['}'])).length = (name.length + 3) := by simp
  have hrest : ('{' :: (name ++ ['}'])).length = name.length + 2 := by simp
  unfold osExpand
  rw [hlen]
  rw [show name.length + 3 = (name.length + 2) + 1 from rfl]
  rw [osExpandFuel]
  rw [if_pos ⟨rfl, by simp⟩]
  simp only [getShellName_braced name hne hnb]
  rw [if_neg (by simp [hne])]
  rw [if_neg (by simp [hne])]
  rw [show ('{' :: (name ++ ['}'])).drop (name, name.length + 2).2 =
        (('{' :: (name ++ ['}'])).drop ('{' :: (name ++ ['}'])).length) from by rw [hrest]]
  rw [List.drop_length]
  rw [show name.length + 2 = (name.length + 1) + 1 from rfl]
  rw [osExpandFuel]
  simp

/-- CLAIM C9: with the production prefix, a key that does not start with
ZIPLINEE_ is answered by getZiplineeEnv with the literal placeholder text
instead of an environment value, so expanding a when-expression leaves such
references as literal text, while a ZIPLINEE_-prefixed reference is replaced
by its environment value. -/
theorem getZiplineeEnv_scoping (env : List Char → List Char) (key : List Char)
    (hkey : ziplineePat.isPrefixOf key = false) (hne : key ≠ []) (hnb : '}' ∉ key) :
    getZiplineeEnv ziplineePat env key = '$' :: '{' :: (key ++ ['}']) ∧
    osExpand (getZiplineeEnv ziplineePat env) ('$' :: '{' :: (key ++ ['}'])) =
      '$' :: '{' :: (key ++ ['}']) ∧
    (∀ pkey, ziplineePat.isPrefixOf pkey = true → '}' ∉ pkey →
        osExpand (getZiplineeEnv ziplineePat env) ('$' :: '{' :: (pkey ++ ['}'])) =
          env pkey) := by
  have hlit : getZiplineeEnv ziplineePat env key = '$' :: '{' :: (key ++ ['}']) := by
    unfold getZiplineeEnv getZiplineeEnvvarName
    rw [replaceAllZiplinee_self]
    simp [hkey]
  refine ⟨hlit, ?_, ?_⟩
  · rw [osExpand_braced _ key hne hnb, hlit]
  · intro pkey hp hpnb
    have hpne : pkey ≠ [] := by
      intro h
      rw [h] at hp
      simp [ziplineePat] at hp
    rw [osExpand_braced _ pkey hpne hpnb]
    unfold getZiplineeEnv getZiplineeEnvvarName
    rw [replaceAllZiplinee_self]
    simp [hp]

/-! ## When-expression evaluation (part_002, whenEvaluator.Evaluate)

The govaluate library is external to the repository; its parser and
evaluator are a parameter `goval` applied to the expanded expression.  A Go
`interface` result is a `GoValue`; an evaluation that returns no value
(nil) is `none`, matching the failed type assertion in the source. -/

/-- Result value of a govaluate evaluation (the float64 case is modelled
opaquely as an integer; only booleanness matters to the caller). -/
inductive GoValue where
  | bool (b : Bool)
  | str (s : List Char)
  | num (n : Int)
deriving DecidableEq

/-- Outcome of handing an expression to govaluate: a parse error from
NewEvaluableExpression, or the value-and-error pair from Evaluate. -/
inductive GovalOutcome where
  | parseErr (msg : List Char)
  | evalResult (r : Option GoValue) (err : Option (List Char))
deriving DecidableEq

/-- Error text for an empty when expression. -/
def errEmptyExpr : List Char := "When expression is empty".toList

/-- Error text for a non-boolean evaluation result. -/
def errNotBool : List Char := "Result of evaluating when expression is not of type boolean".toList

/-- Embedding of `whenEvaluator.Evaluate` (part_002): reject the empty
expression, expand ZIPLINEE_ references via os.Expand with getZiplineeEnv,
hand the expanded text to govaluate, and type-assert the result to bool;
any non-boolean result (including a nil value from a failed evaluation)
yields false with the type error. -/
def whenEvaluate (goval : List Char → GovalOutcome) (pfx : List Char)
    (env : List Char → List Char) (input : List Char) :
    Bool × Option (List Char) :=
  if input = [] then (false, some errEmptyExpr)
  else
    let expanded := osExpand (getZiplineeEnv pfx env) input
    match goval expanded with
    | .parseErr msg => (false, some msg)
    | .evalResult r errE =>
        match r with
        | some (.bool b) => (b, errE)
        | _ => (false, some errNotBool)

/-- CLAIM C6: Evaluate returns false with an error for the empty expression;
for a nonempty expression the expression handed to govaluate is the
os.Expand of the input through getZiplineeEnv, and a boolean result is
returned as-is, a non-boolean (or absent) result yields false with the
type error, and a parse error yields false with that error. -/
theorem whenEvaluate_contract (goval : List Char → GovalOutcome)
    (pfx : List Char) (env : List Char → List Char) :
    (whenEvaluate goval pfx env [] = (false, some errEmptyExpr)) ∧
    (∀ input b errE, input ≠ [] →
        goval (osExpand (getZiplineeEnv pfx env) input) =
          .evalResult (some (.bool b)) errE →
        whenEvaluate goval pfx env input = (b, errE)) ∧
    (∀ input r errE, input ≠ [] →
        goval (osExpand (getZiplineeEnv pfx env) input) = .evalResult r errE →
        (∀ b, r ≠ some (.bool b)) →
        whenEvaluate goval pfx env input = (false, some errNotBool)) ∧
    (∀ input msg, input ≠ [] →
        goval (osExpand (getZiplineeEnv pfx env) input) = .parseErr msg →
        whenEvaluate goval pfx env input = (false, some msg)) := by
  refine ⟨rfl, ?_, ?_, ?_⟩
  · intro input b errE hne hg
    simp [whenEvaluate, hne, hg]
  · intro input r errE hne hg hnb
    rcases r with _ | v
    · simp [whenEvaluate, hne, hg]
    · rcases v with b | s | n
      · exact absurd rfl (hnb b)
      · simp [whenEvaluate, hne, hg]
      · simp [whenEvaluate, hne, hg]
  · intro input msg hne hg
    simp [whenEvaluate, hne, hg]

/-- A govaluate stand-in that always evaluates to the boolean true. -/
def govalWitness : List Char → GovalOutcome :=
  fun _ => .evalResult (some (.bool true)) none

/-- Witness for C6: a concrete nonempty expression whose evaluation is the
boolean true is returned as true without error. -/
theorem whenEvaluate_contract_witness :
    whenEvaluate govalWitness ziplineePat (fun _ => []) ['x'] = (true, none) :=
  (whenEvaluate_contract govalWitness ziplineePat (fun _ => [])).2.1
    ['x'] true none (by simp) rfl

/-- Concrete environment for the scoping witness. -/
def envWitness : List Char → List Char :=
  fun k => if k = "ZIPLINEE_GIT_BRANCH".toList then "main".toList else []

/-- Witness for C9: a non-prefixed reference expands to itself literally, a
prefixed reference expands to its environment value. -/
theorem getZiplineeEnv_scoping_witness :
    osExpand (getZiplineeEnv ziplineePat envWitness)
        ('$' :: '{' :: ("FOO".toList ++ ['}'])) =
      '$' :: '{' :: ("FOO".toList ++ ['}']) ∧
    osExpand (getZiplineeEnv ziplineePat envWitness)
        ('$' :: '{' :: ("ZIPLINEE_GIT_BRANCH".toList ++ ['}'])) =
      envWitness "ZIPLINEE_GIT_BRANCH".toList :=
  ⟨(getZiplineeEnv_scoping envWitness "FOO".toList (by decide) (by decide) (by decide)).2.1,
   (getZiplineeEnv_scoping envWitness "FOO".toList (by decide) (by decide) (by decide)).2.2
     "ZIPLINEE_GIT_BRANCH".toList (by decide) (by decide)⟩

/-! ## Trigger-event environment variables (part_005, setZiplineeEventEnvvars)

The source walks the fields of `manifest.ZiplineeEvent` reflectively: the
string field Name and the bool field Fired are skipped (not pointers), and
every non-nil pointer field is a payload whose own fields are rendered to
strings (string fields verbatim, anything else JSON-marshalled and trimmed
of quotes).  The embedding keeps the reflective walk as data: an event
carries its payloads as a list of (Go field name, optional list of rendered
(property name, value) pairs) in declaration order.
`foundation.ToUpperSnakeCase` is external and appears as the parameter
`usc`.  The function issues `setZiplineeEnv` calls; the embedding returns
that write sequence (setZiplineeEnv then maps the ZIPLINEE_ prefix onto the
configured prefix, the identity in production, see replaceAllZiplinee_self). -/

/-- A trigger event as traversed by the reflective loop. -/
structure ZiplineeEvent where
  name : String
  fired : Bool
  payloads : List (String × Option (List (String × String)))

/-- The environment writes one event produces: for every property of every
non-nil payload, the kind-named variable when the event fired, then the
name-named variable when the event has a name. -/
def eventEnvvarWrites (usc : String → String) (e : ZiplineeEvent) :
    List (String × String) :=
  e.payloads.flatMap (fun kp =>
    match kp.2 with
    | none => []
    | some props =>
        props.flatMap (fun fv =>
          (if e.fired then
            [("ZIPLINEE_TRIGGER_" ++ usc kp.1 ++ "_" ++ usc fv.1, fv.2)]
          else []) ++
          (if e.name ≠ "" then
            [("ZIPLINEE_TRIGGER_" ++ usc e.name ++ "_" ++ usc fv.1, fv.2)]
          else [])))

/-- Embedding of `envvarHelper.setZiplineeEventEnvvars` as its sequence of
environment writes. -/
def setZiplineeEventEnvvars (usc : String → String)
    (events : List ZiplineeEvent) : List (String × String) :=
  events.flatMap (eventEnvvarWrites usc)

/-- CLAIM C7: a pair (k, v) is written by setZiplineeEventEnvvars exactly
when some event has a non-nil payload with a property valued v and either
the event fired and k is the ZIPLINEE_TRIGGER_<KIND>_<FIELD> variable, or
the event carries a non-empty Name (fired or not) and k is the
ZIPLINEE_TRIGGER_<NAME>_<FIELD> variable. -/
theorem setZiplineeEventEnvvars_spec (usc : String → String)
    (events : List ZiplineeEvent) (k v : String) :
    (k, v) ∈ setZiplineeEventEnvvars usc events ↔
      ∃ e ∈ events, ∃ kind props, (kind, some props) ∈ e.payloads ∧
        ∃ field, (field, v) ∈ props ∧
          ((e.fired = true ∧ k = "ZIPLINEE_TRIGGER_" ++ usc kind ++ "_" ++ usc field) ∨
           (e.name ≠ "" ∧ k = "ZIPLINEE_TRIGGER_" ++ usc e.name ++ "_" ++ usc field)) := by
  unfold setZiplineeEventEnvvars eventEnvvarWrites
  rw [List.mem_flatMap]
  constructor
  · rintro ⟨e, he, hmem⟩
    rw [List.mem_flatMap] at hmem
    obtain ⟨kp, hkp, hmem2⟩ := hmem
    rcases hps : kp.2 with _ | props
    · rw [hps] at hmem2; simp at hmem2
    · rw [hps] at hmem2
      rw [List.mem_flatMap] at hmem2
      obtain ⟨fv, hfv, hmem3⟩ := hmem2
      rw [List.mem_append] at hmem3
      have hkp2 : (kp.1, some props) ∈ e.payloads := by
        rw [← hps]
        exact hkp
      have hfv2 : (fv.1, fv.2) ∈ props := hfv
      rcases hmem3 with h | h
      · cases hf : e.fired with
        | false => rw [hf] at h; simp at h
        | true =>
            rw [hf] at h
            simp only [if_true, List.mem_singleton, Prod.mk.injEq] at h
            obtain ⟨hk, hv⟩ := h
            refine ⟨e, he, kp.1, props, hkp2, fv.1, ?_, Or.inl ⟨hf, hk⟩⟩
            rw [← hv] at hfv2
            exact hfv2
      · by_cases hn : e.name ≠ ""
        · rw [if_pos hn] at h
          simp only [List.mem_singleton, Prod.mk.injEq] at h
          obtain ⟨hk, hv⟩ := h
          refine ⟨e, he, kp.1, props, hkp2, fv.1, ?_, Or.inr ⟨hn, hk⟩⟩
          rw [← hv] at hfv2
          exact hfv2
        · rw [if_neg hn] at h
          simp at h
  · rintro ⟨e, he, kind, props, hkp, field, hfv, hcase⟩
    refine ⟨e, he, ?_⟩
    rw [List.mem_flatMap]
    refine ⟨(kind, some props), hkp, ?_⟩
    simp only []
    rw [List.mem_flatMap]
    refine ⟨(field, v), hfv, ?_⟩
    rw [List.mem_append]
    rcases hcase with ⟨hf, hk⟩ | ⟨hn, hk⟩
    · left; simp [hf, hk]
    · right; simp [hn, hk]
